import Mathlib

/-!
# TCP variants comparison harness (`Assignment 4/Group_25/sourcecode.cc`)

A shallow embedding of the harness: the traffic generator `temp`
(`initialize`, `StartApplication`, `StopApplication`, `next`, `send`), the
drop sampler `dropped`, and the variant selection at the head of `main`.

Conventions of the embedding.

* Virtual time is a rational number of seconds.  The `double` quotient in
  `next` and the conversion `Seconds (..)` are taken exactly; the `float`
  time stamp stored by `dropped` is taken exactly as well.
* `uint32_t` and `int` values are naturals and integers, reduced explicitly
  where the C++ arithmetic wraps.
* The socket, the flow monitor and the event scheduler belong to the
  simulation library.  They are modelled by the small interfaces below,
  which record exactly the calls the program makes.
-/

namespace TcpVariants

/-! ## The event scheduler -/

/-- The functions of the program that are handed to the scheduler. -/
inductive Callback
  | startApp
  | stopApp
  | send
  | dropped
  | simStop
  deriving DecidableEq, Repr

/-- A scheduled event: its time stamp, its unique id and the function to
run.  The time stamp is `none` when the delay it was scheduled with is not a
time (the quotient by a zero bit rate in `temp::next`). -/
structure Event where
  ts : Option ℚ
  uid : Nat
  cb : Callback
  deriving DecidableEq

/-- An `EventId`; `none` is the default-constructed handle, which refers to
no event. -/
abbrev EventId := Option Nat

/-- The ways an operation can leave defined behaviour. -/
inductive Fault
  | nullSocket
  | undefinedTime
  | outOfRange
  deriving DecidableEq, Repr

deriving instance DecidableEq for Except

/-- Modelled from the spec: the discrete-event engine (section 5).  It keeps
the current virtual time, the pending events (neither fired nor cancelled)
and whether the stop time has been reached. -/
structure Simulator where
  now : ℚ
  nextUid : Nat
  events : List Event
  stopped : Bool
  deriving DecidableEq

namespace Simulator

/-- Modelled from the spec: `Simulator::Schedule (delay, cb)` arms `cb` at
`now + delay` and returns the handle of the new event. -/
def Schedule (sim : Simulator) (delay : Option ℚ) (cb : Callback) : Simulator × EventId :=
  ({ sim with
      nextUid := sim.nextUid + 1
      events := sim.events ++ [⟨delay.map (fun d => sim.now + d), sim.nextUid, cb⟩] },
   some sim.nextUid)

/-- Modelled from the spec: `EventId::IsRunning ()`, true exactly for a
handle whose event is still pending. -/
def IsRunning (sim : Simulator) (id : EventId) : Bool :=
  match id with
  | none => false
  | some u => sim.events.any (fun e => e.uid == u)

/-- Modelled from the spec: `Simulator::Cancel (id)`; the event will never
fire, and cancelling a handle that is not pending changes nothing. -/
def Cancel (sim : Simulator) (id : EventId) : Simulator :=
  match id with
  | none => sim
  | some u => { sim with events := sim.events.filter (fun e => e.uid != u) }

/-- Scheduling order: earlier time stamp first, and for equal time stamps
the event that was scheduled first.  An event without a time stamp is put in
front, so that it is met by the very next step. -/
def before (a b : Event) : Bool :=
  match a.ts, b.ts with
  | some s, some t => decide (s < t) || (decide (s = t) && decide (a.uid < b.uid))
  | none, _ => true
  | some _, none => false

/-- The pending event that fires next. -/
def earliest : List Event → Option Event
  | [] => none
  | e :: es =>
    match earliest es with
    | none => some e
    | some m => if before e m then some e else some m

/-- Modelled from the spec: take the next event off the queue and move the
clock to its time stamp.  Nothing is delivered once the engine has stopped,
and the step is undefined when the next event has no time stamp. -/
def popNext (sim : Simulator) : Except Fault (Option (Event × Simulator)) :=
  if sim.stopped then .ok none
  else
    match earliest sim.events with
    | none => .ok none
    | some e =>
      match e.ts with
      | none => .error .undefinedTime
      | some t =>
        .ok (some (e, { sim with
          now := t
          events := sim.events.filter (fun x => x.uid != e.uid) }))

end Simulator

/-! ## The socket and the destination address -/

/-- The destination address, as far as the program inspects it. -/
inductive Address
  | empty
  | inet (host port : Nat)
  | inet6 (host port : Nat)
  deriving DecidableEq, Repr

/-- `InetSocketAddress::IsMatchingType`. -/
def InetSocketAddress.IsMatchingType : Address → Bool
  | .inet _ _ => true
  | _ => false

/-- Which of the two bind calls was made. -/
inductive BindKind
  | bind
  | bind6
  deriving DecidableEq, Repr

/-- Modelled from the spec: the connectable socket of the transport stack.
The record keeps the calls made on it: the bind path, the peer of `Connect`,
whether `Close` was called, and the time and size of every `Send`. -/
structure Socket where
  bound : Option BindKind
  peer : Option Address
  closed : Bool
  txLog : List (ℚ × Nat)
  deriving DecidableEq

namespace Socket

/-- A socket as `Socket::CreateSocket` returns it. -/
def fresh : Socket := ⟨none, none, false, []⟩

/-- `Socket::Bind ()`. -/
def Bind (s : Socket) : Socket := { s with bound := some .bind }

/-- `Socket::Bind6 ()`. -/
def Bind6 (s : Socket) : Socket := { s with bound := some .bind6 }

/-- `Socket::Connect (address)`. -/
def Connect (s : Socket) (a : Address) : Socket := { s with peer := some a }

/-- `Socket::Close ()`. -/
def Close (s : Socket) : Socket := { s with closed := true }

/-- `Socket::Send (packet)` for a packet of `size` bytes, at time `now`. -/
def Send (s : Socket) (now : ℚ) (size : Nat) : Socket :=
  { s with txLog := s.txLog ++ [(now, size)] }

end Socket

/-! ## The flow monitor -/

/-- `FlowMonitor::FlowStats`, reduced to the field the program reads. -/
structure FlowStats where
  packetsDropped : List Nat
  deriving DecidableEq, Repr

/-- `std::map<FlowId, FlowMonitor::FlowStats>` as an association list. -/
abbrev FlowStatsMap := List (Nat × FlowStats)

/-- `stats[id]`: the entry of `id`, or a default-constructed `FlowStats`
(which `operator[]` inserts) when the flow is absent. -/
def FlowStatsMap.index (stats : FlowStatsMap) (id : Nat) : FlowStats :=
  (stats.lookup id).getD ⟨[]⟩

/-! ## Program state -/

/-- The data members of `class temp`. -/
structure temp where
  tempsocket : Option Socket
  tempaddress : Address
  temppacketSize : Nat
  tempnPackets : Nat
  tempdataRate : Nat
  tempsendEvent : EventId
  temprunning : Bool
  temppacketsSent : Nat
  deriving DecidableEq

/-- The generator, the global `fmon` (the statistics it reports at each
virtual time), the global `vecdrop`, and the scheduler. -/
structure World where
  app : temp
  fmon : ℚ → FlowStatsMap
  vecdrop : List (ℚ × Int)
  sim : Simulator

/-- The constructor `temp::temp ()`. -/
def temp.new : temp :=
  { tempsocket := none, tempaddress := .empty, temppacketSize := 0, tempnPackets := 0,
    tempdataRate := 0, tempsendEvent := none, temprunning := false, temppacketsSent := 0 }

/-- The method `temp::initialize`. -/
def temp.initialize (t : temp) (socket : Option Socket) (address : Address)
    (packetSize nPackets dataRate : Nat) : temp :=
  { t with
    temppacketSize := packetSize
    tempaddress := address
    tempdataRate := dataRate
    tempnPackets := nPackets
    tempsocket := socket }

/-- The delay computed in `temp::next`:
`temppacketSize * 8 / static_cast<double> (tempdataRate.GetBitRate ())`,
the product being a `uint32_t`.  The quotient by a zero bit rate is not a
number of seconds. -/
def interSendDelay (t : temp) : Option ℚ :=
  if t.tempdataRate = 0 then none
  else some (((t.temppacketSize * 8 % 2 ^ 32 : Nat) : ℚ) / (t.tempdataRate : ℚ))

/-- The method `temp::next`. -/
def next (w : World) : World :=
  if w.app.temprunning then
    let tNext := interSendDelay w.app
    let r := w.sim.Schedule tNext .send
    { w with sim := r.1, app := { w.app with tempsendEvent := r.2 } }
  else w

/-- The method `temp::send`.  The counter `temppacketsSent` is a `uint32_t`. -/
def send (w : World) : Except Fault World :=
  match w.app.tempsocket with
  | none => .error .nullSocket
  | some s =>
    let sent := (w.app.temppacketsSent + 1) % 2 ^ 32
    let w1 : World :=
      { w with app := { w.app with
          tempsocket := some (s.Send w.sim.now w.app.temppacketSize)
          temppacketsSent := sent } }
    if sent < w1.app.tempnPackets then .ok (next w1) else .ok w1

/-- The method `temp::StartApplication`. -/
def StartApplication (w : World) : Except Fault World :=
  let a : temp := { w.app with temppacketsSent := 0, temprunning := true }
  match a.tempsocket with
  | none => .error .nullSocket
  | some s =>
    let s1 := if !InetSocketAddress.IsMatchingType a.tempaddress then s.Bind6 else s.Bind
    let s2 := s1.Connect a.tempaddress
    send { w with app := { a with tempsocket := some s2 } }

/-- The method `temp::StopApplication`. -/
def StopApplication (w : World) : World :=
  let a : temp := { w.app with temprunning := false }
  let sim := if w.sim.IsRunning a.tempsendEvent then w.sim.Cancel a.tempsendEvent else w.sim
  let a : temp :=
    match a.tempsocket with
    | some s => { a with tempsocket := some s.Close }
    | none => a
  { w with app := a, sim := sim }

/-! ## The drop sampler -/

/-- Conversion of a `uint32_t` value to `int` (two's complement). -/
def toInt32 (n : Nat) : Int :=
  if n % 2 ^ 32 < 2 ^ 31 then ((n % 2 ^ 32 : Nat) : Int)
  else ((n % 2 ^ 32 : Nat) : Int) - 2 ^ 32

/-- Conversion of an `int` to `uint32_t`. -/
def toUInt32 (i : Int) : Nat := (i % 2 ^ 32).toNat

/-- The statement `count += a + b` for `int count` and `uint32_t a, b`: the
sum `a + b` is a `uint32_t`, `count` is converted to `uint32_t` for the
addition and the result is converted back to `int`. -/
def addDrops (count : Int) (a b : Nat) : Int :=
  toInt32 (toUInt32 count + (a + b) % 2 ^ 32)

/-- The access `v[i]` on a `std::vector`; an index outside the vector has
no defined value. -/
def vectorAt (v : List Nat) (i : Nat) : Except Fault Nat :=
  match v[i]? with
  | some x => .ok x
  | none => .error .outOfRange

/-- One of the two `if` statements of `dropped`, for the statistics `fs` of
one flow. -/
def flowDrops (count : Int) (fs : FlowStats) : Except Fault Int :=
  if fs.packetsDropped.length ≥ 5 then
    match vectorAt fs.packetsDropped 3, vectorAt fs.packetsDropped 4 with
    | .ok a, .ok b => .ok (addDrops count a b)
    | .error f, _ => .error f
    | _, .error f => .error f
  else .ok count

/-- The value of `count` that `dropped` appends, for the snapshot `stats`. -/
def dropCount (stats : FlowStatsMap) : Except Fault Int :=
  match flowDrops 0 (stats.index 1) with
  | .ok count => flowDrops count (stats.index 2)
  | .error f => .error f

/-- The function `dropped`. -/
def dropped (w : World) : Except Fault World :=
  let stats := w.fmon w.sim.now
  let time := w.sim.now
  match dropCount stats with
  | .error f => .error f
  | .ok count =>
    let r := w.sim.Schedule (some (1 / 100)) .dropped
    .ok { w with vecdrop := w.vecdrop ++ [(time, count)], sim := r.1 }

/-! ## Running the engine -/

/-- The function of the program behind each callback. -/
def exec (cb : Callback) (w : World) : Except Fault World :=
  match cb with
  | .startApp => StartApplication w
  | .stopApp => .ok (StopApplication w)
  | .send => send w
  | .dropped => dropped w
  | .simStop => .ok { w with sim := { w.sim with stopped := true } }

/-- Modelled from the spec: one step of the engine, which delivers the next
pending event; with nothing to deliver the world stays as it is. -/
def fire (w : World) : Except Fault World :=
  match w.sim.popNext with
  | .error f => .error f
  | .ok none => .ok w
  | .ok (some (e, sim1)) => exec e.cb { w with sim := sim1 }

/-- Modelled from the spec: `Simulator::Run ()`, bounded by a number of steps. -/
def run : Nat → World → Except Fault World
  | 0, w => .ok w
  | k + 1, w =>
    match fire w with
    | .ok w1 => run k w1
    | .error f => .error f

/-- The transport types `main` can install as `ns3::TcpL4Protocol::SocketType`. -/
inductive TcpTypeId
  | TcpNewReno
  | TcpHybla
  | TcpWestwood
  | TcpScalable
  | TcpVegas
  deriving DecidableEq, Repr

/-- The effects of `main` that can be seen from outside, in program order. -/
inductive Action
  | setSocketType (t : TcpTypeId)
  | setWestwoodFilterTustin
  | logDebug
  | exitProcess (code : Nat)
  | buildTopology
  | createFile (name : String)
  | runSimulation
  | returnFrom (code : Nat)
  deriving DecidableEq, Repr

/-- The chain of `TCPvariant.compare (..) == 0` tests of `main`: the
`Config::SetDefault` calls made for the name, or `none` in the final `else`. -/
def selectVariant (TCPvariant : String) : Option (List Action) :=
  if TCPvariant = "TcpNewReno" then some [.setSocketType .TcpNewReno]
  else if TCPvariant = "TcpHybla" then some [.setSocketType .TcpHybla]
  else if TCPvariant = "TcpWestwood" then
    some [.setSocketType .TcpWestwood, .setWestwoodFilterTustin]
  else if TCPvariant = "TcpScalable" then some [.setSocketType .TcpScalable]
  else if TCPvariant = "TcpVegas" then some [.setSocketType .TcpVegas]
  else none

/-- The function `main`, as the sequence of its effects for a variant name. -/
def main (TCPvariant : String) : List Action :=
  match selectVariant TCPvariant with
  | none => [.logDebug, .exitProcess 1]
  | some defaults =>
    defaults ++
      [.buildTopology,
       .createFile ("congestion_" ++ TCPvariant),
       .createFile ("sentbytes_" ++ TCPvariant),
       .runSimulation,
       .createFile ("flowmonitor_" ++ TCPvariant),
       .createFile ("drop_" ++ TCPvariant),
       .returnFrom 0]

/-- The names `main` recognises. -/
def variantNames : List String :=
  ["TcpNewReno", "TcpHybla", "TcpWestwood", "TcpScalable", "TcpVegas"]

/-- An effect that builds the topology or creates an output file. -/
def Action.buildsOrCreates : Action → Bool
  | .buildTopology => true
  | .createFile _ => true
  | _ => false

/-! ## The sampler's count as the specification words it -/

/-- What one tracked flow contributes to a sample according to the
specification: bucket 3 plus bucket 4 when the flow is present with at least
five buckets, and nothing otherwise. -/
def specContribution (stats : FlowStatsMap) (id : Nat) : Nat :=
  match stats.lookup id with
  | none => 0
  | some fs =>
    if 5 ≤ fs.packetsDropped.length then
      fs.packetsDropped[3]?.getD 0 + fs.packetsDropped[4]?.getD 0
    else 0

/-- The sample total according to the specification, over flows 1 and 2. -/
def specDropTotal (stats : FlowStatsMap) : Nat :=
  specContribution stats 1 + specContribution stats 2

/-! ## Life cycle of the generator -/

/-- Modelled from the spec: the engine delivers `StartApplication` at the
virtual time `t`. -/
def startAt (t : ℚ) (w : World) : Except Fault World :=
  StartApplication { w with sim := { w.sim with now := t } }

/-- Modelled from the spec: the engine delivers `StopApplication` at the
virtual time `t`. -/
def stopAt (t : ℚ) (w : World) : World :=
  StopApplication { w with sim := { w.sim with now := t } }

/-- A world in which the generator has been constructed and configured
(`temp::temp` followed by `initialize`, whose count is a `uint32_t` and
whose socket, if any, has sent nothing) and in which only the sampler and
the engine stop may be pending. -/
def Created (w : World) : Prop :=
  (∃ sock address packetSize n rate,
    w.app = temp.new.initialize sock address packetSize n rate ∧ n < 2 ^ 32 ∧
    ∀ s, sock = some s → s.txLog = []) ∧
  ∀ e ∈ w.sim.events, e.cb = .dropped ∨ e.cb = .simStop

/-- Modelled from the spec: the states of the generator's life cycle
(section 4.1): Created, Running, Stopped. -/
inductive Phase
  | created
  | started
  | stopped
  deriving DecidableEq, Repr

/-- Modelled from the spec: the worlds the generator and the event queue can
reach.  The generator is started at most once and only while Created, it can
be stopped at any time, after which it is Stopped for good, and in between
the engine delivers pending events. -/
inductive Reach : Phase → World → Prop
  | init {w : World} : Created w → Reach .created w
  | start {w w1 : World} (t : ℚ) : Reach .created w → startAt t w = .ok w1 → Reach .started w1
  | stop {p : Phase} {w : World} (t : ℚ) : Reach p w → Reach .stopped (stopAt t w)
  | fire {p : Phase} {w w1 : World} : Reach p w → fire w = .ok w1 → Reach p w1

/-- What can happen once the generator has been stopped: the engine delivers
a pending event, or stop is called again. -/
inductive Step : World → World → Prop
  | fire {w w1 : World} : fire w = .ok w1 → Step w w1
  | stop {w : World} (t : ℚ) : Step w (stopAt t w)

/-- No send event is pending. -/
def Idle (w : World) : Prop := ∀ e ∈ w.sim.events, e.cb ≠ .send

/-- The packets handed to the socket so far, with their times. -/
def txLogOf (w : World) : List (ℚ × Nat) :=
  match w.app.tempsocket with
  | some s => s.txLog
  | none => []

/-! ## The run of the driver -/

/-- The event `next` arms in the world `w`. -/
def armedSend (w : World) : Event :=
  ⟨(interSendDelay w.app).map (fun d => w.sim.now + d), w.sim.nextUid, .send⟩

/-- The world right after `StartApplication` in a world whose generator has
the socket `s`, before the test that decides whether `next` is called. -/
def afterFirstSend (w : World) (s : Socket) : World :=
  { w with app := { w.app with
      temppacketsSent := 1
      temprunning := true
      tempsocket := some
        (((if !InetSocketAddress.IsMatchingType w.app.tempaddress then s.Bind6
            else s.Bind).Connect w.app.tempaddress).Send w.sim.now w.app.temppacketSize) } }

/-- A freshly created world: the generator of `main` with target count `n`
and bit rate `rate`, an idle scheduler at time 0, nothing sampled. -/
def freshWorld (address : Address) (packetSize n rate : Nat) : World :=
  ⟨ temp.new.initialize (some Socket.fresh) address packetSize n rate,
   fun _ => [], [], ⟨0, 0, [], false⟩⟩

/-- The snapshot of the counterexample to C4: flow 1 has five buckets, with
`2 ^ 31` drops in bucket 3. -/
def overflowStats : FlowStatsMap := [(1, ⟨[0, 0, 0, 2147483648, 0]⟩)]

/-- A snapshot with a flow of two buckets and a flow of five. -/
def shortStats : FlowStatsMap := [(1, ⟨[7, 9]⟩), (2, ⟨[1, 2, 3, 4, 5]⟩)]

/-- What holds in every reachable world. -/
structure Inv (w : World) : Prop where
  queue : ∀ e ∈ w.sim.events, e.cb ≠ .startApp ∧ e.cb ≠ .stopApp
  armed : ∀ e ∈ w.sim.events, e.cb = .send →
    w.app.tempsendEvent = some e.uid ∧ w.app.temppacketsSent < w.app.tempnPackets
  bound : w.app.temppacketsSent ≤ max w.app.tempnPackets 1
  target : w.app.tempnPackets < 2 ^ 32
  log : (txLogOf w).length = w.app.temppacketsSent

/-- What holds in a reachable world of the given phase. -/
def PInv (p : Phase) (w : World) : Prop :=
  Inv w ∧
  (p = .created → Idle w ∧ w.app.temppacketsSent = 0) ∧
  (p = .stopped → Idle w ∧ w.app.temprunning = false)

/-! ## Theorems -/

theorem toInt32_add_wrap (x y : Nat) :
    toInt32 (toUInt32 (toInt32 x) + y % 2 ^ 32) = toInt32 (x + y) := by
  simp only [toInt32, toUInt32]
  norm_num
  split_ifs <;> omega

theorem toInt32_of_lt {n : Nat} (h : n < 2 ^ 31) : toInt32 n = (n : Int) := by
  simp only [toInt32]
  norm_num at h ⊢
  split_ifs <;> omega

theorem flowDrops_ok (count : Int) (fs : FlowStats) :
    flowDrops count fs = .ok
      (if 5 ≤ fs.packetsDropped.length then
        addDrops count (fs.packetsDropped[3]?.getD 0) (fs.packetsDropped[4]?.getD 0)
       else count) := by
  obtain ⟨l⟩ := fs
  by_cases h : 5 ≤ l.length
  · match l, h with
    | a :: b :: c :: d :: e :: t, _ => simp [flowDrops, vectorAt]
  · simp [flowDrops, h]

theorem index_contribution (stats : FlowStatsMap) (id : Nat) :
    (if 5 ≤ (stats.index id).packetsDropped.length then
        (stats.index id).packetsDropped[3]?.getD 0 + (stats.index id).packetsDropped[4]?.getD 0
      else 0) = specContribution stats id := by
  unfold FlowStatsMap.index specContribution
  cases stats.lookup id <;> simp

theorem dropCount_ok (stats : FlowStatsMap) :
    dropCount stats = .ok (toInt32 (specDropTotal stats)) := by
  have h0 : (0 : Int) = toInt32 0 := by simp [toInt32]
  have key : ∀ (x : Nat) (id : Nat),
      flowDrops (toInt32 x) (stats.index id) = .ok (toInt32 (x + specContribution stats id)) := by
    intro x id
    rw [flowDrops_ok, ← index_contribution stats id]
    split_ifs with h
    · rw [addDrops, toInt32_add_wrap]
    · simp
  unfold dropCount specDropTotal
  rw [h0, key 0 1]
  simp only [key, Nat.zero_add]


/-- C5: `main` accepts a variant name exactly when it is one of the five
names, installs a different transport type for each of them, and for every
other name (for instance "TcpFoo", or a name in another letter case) logs,
exits with status 1 and neither builds the topology nor creates a file. -/
theorem main_variant_selection :
    (∀ v : String, (selectVariant v).isSome = true ↔ v ∈ variantNames) ∧
    selectVariant "TcpNewReno" = some [.setSocketType .TcpNewReno] ∧
    selectVariant "TcpHybla" = some [.setSocketType .TcpHybla] ∧
    selectVariant "TcpWestwood" =
      some [.setSocketType .TcpWestwood, .setWestwoodFilterTustin] ∧
    selectVariant "TcpScalable" = some [.setSocketType .TcpScalable] ∧
    selectVariant "TcpVegas" = some [.setSocketType .TcpVegas] ∧
    (∀ v : String, v ∉ variantNames →
      main v = [.logDebug, .exitProcess 1] ∧
      (main v).any Action.buildsOrCreates = false) ∧
    (∀ v : String, v ∈ variantNames →
      (main v).getLast? = some (.returnFrom 0) ∧
      Action.exitProcess 1 ∉ main v) ∧
    main "TcpFoo" = [.logDebug, .exitProcess 1] ∧
    main "tcpnewreno" = [.logDebug, .exitProcess 1] := by
  have hsel : ∀ v : String, v ∉ variantNames → selectVariant v = none := by
    intro v hv
    simp only [variantNames, List.mem_cons, List.mem_singleton, List.not_mem_nil,
      or_false, not_or] at hv
    obtain ⟨h1, h2, h3, h4, h5⟩ := hv
    simp [selectVariant, h1, h2, h3, h4, h5]
  refine ⟨?_, by decide, by decide, by decide, by decide, by decide, ?_, ?_, ?_, ?_⟩
  · intro v
    constructor
    · intro h
      by_contra hv
      rw [hsel v hv] at h
      simp at h
    · intro hv
      simp only [variantNames, List.mem_cons, List.mem_singleton, List.not_mem_nil,
        or_false] at hv
      rcases hv with rfl | rfl | rfl | rfl | rfl <;> decide
  · intro v hv
    simp [main, hsel v hv, Action.buildsOrCreates]
  · intro v hv
    simp only [variantNames, List.mem_cons, List.mem_singleton, List.not_mem_nil,
      or_false] at hv
    rcases hv with rfl | rfl | rfl | rfl | rfl <;> decide
  · decide
  · decide

/-- C4, as the code has it: for every snapshot the sampler faults on no
index and appends, with the current time, the specification's total over
flows 1 and 2 (buckets 3 and 4 of a flow with at least five buckets, nothing
for a shorter or absent flow) reduced to a signed 32-bit `int`; the
appended count is that total itself whenever the total is below `2 ^ 31`. -/
theorem dropped_appends_wrapped_total (w : World) :
    dropCount (w.fmon w.sim.now) = .ok (toInt32 (specDropTotal (w.fmon w.sim.now))) ∧
    (∃ w1, dropped w = .ok w1 ∧
      w1.vecdrop = w.vecdrop ++ [(w.sim.now, toInt32 (specDropTotal (w.fmon w.sim.now)))]) ∧
    (specDropTotal (w.fmon w.sim.now) < 2 ^ 31 →
      dropCount (w.fmon w.sim.now) = .ok (specDropTotal (w.fmon w.sim.now) : Int)) ∧
    (∀ id fs, (w.fmon w.sim.now).lookup id = some fs → fs.packetsDropped.length < 5 →
      specContribution (w.fmon w.sim.now) id = 0) ∧
    (∀ id, (w.fmon w.sim.now).lookup id = none →
      specContribution (w.fmon w.sim.now) id = 0) := by
  refine ⟨dropCount_ok _, ?_, ?_, ?_, ?_⟩
  · simp [dropped, dropCount_ok]
  · intro h
    rw [dropCount_ok, toInt32_of_lt h]
  · intro id fs hl hlen
    simp [specContribution, hl, Nat.not_le.mpr hlen]
  · intro id hl
    simp [specContribution, hl]

/-- C4 witness: for a world whose monitor reports a two-bucket flow 1 and a
five-bucket flow 2, the count is `4 + 5` and flow 1 contributes nothing. -/
theorem dropped_appends_wrapped_total_witness :
    specDropTotal shortStats < 2 ^ 31 ∧
    dropCount shortStats = .ok 9 ∧
    specContribution shortStats 1 = 0 :=
  ⟨by decide,
   (dropped_appends_wrapped_total
      ⟨temp.new, fun _ => shortStats, [], ⟨0, 0, [], false⟩⟩).2.2.1 (by decide),
   by decide⟩

/-- C4 counterexample: with `2 ^ 31` drops in bucket 3 of flow 1 the total of
the specification is `2 ^ 31`, and the count the sampler computes is
`- 2 ^ 31`. -/
theorem dropCount_overflow_counterexample :
    specDropTotal overflowStats = 2147483648 ∧
    dropCount overflowStats = .ok (-2147483648) ∧
    dropCount overflowStats ≠ .ok (specDropTotal overflowStats : Int) := by
  decide

/-- C7: `StopApplication` is defined on every world (with or without a
socket, started or not, with or without an armed send), a second stop
changes nothing, and one stop leaves `temprunning` false and the send handle
not pending, closes the socket if there is one, removes from the queue only
the event of the send handle, and leaves all other data as they were. -/
theorem StopApplication_idempotent (w : World) :
    StopApplication (StopApplication w) = StopApplication w ∧
    (StopApplication w).app.temprunning = false ∧
    (StopApplication w).sim.IsRunning (StopApplication w).app.tempsendEvent = false ∧
    (StopApplication w).app.tempsocket = w.app.tempsocket.map Socket.Close ∧
    (StopApplication w).app.tempsendEvent = w.app.tempsendEvent ∧
    (StopApplication w).app.tempaddress = w.app.tempaddress ∧
    (StopApplication w).app.temppacketSize = w.app.temppacketSize ∧
    (StopApplication w).app.tempnPackets = w.app.tempnPackets ∧
    (StopApplication w).app.tempdataRate = w.app.tempdataRate ∧
    (StopApplication w).app.temppacketsSent = w.app.temppacketsSent ∧
    (StopApplication w).sim.events =
      w.sim.events.filter (fun e => decide (some e.uid ≠ w.app.tempsendEvent)) ∧
    (StopApplication w).sim.now = w.sim.now ∧
    (StopApplication w).sim.nextUid = w.sim.nextUid ∧
    (StopApplication w).sim.stopped = w.sim.stopped ∧
    (StopApplication w).vecdrop = w.vecdrop ∧
    (StopApplication w).fmon = w.fmon := by
  obtain ⟨⟨sock, addr, ps, n, r, h, run, sent⟩, fmon, vd, ⟨now, uid, evs, stp⟩⟩ := w
  cases h with
  | none => cases sock <;> simp [StopApplication, Simulator.IsRunning, Socket.Close]
  | some u =>
    have hfun : (fun e : Event => e.uid != u) = fun e => !decide (e.uid = u) := by
      funext e
      by_cases h : e.uid = u <;> simp [bne, h]
    by_cases hany : evs.any (fun e => e.uid == u) = true
    · cases sock <;>
        simp [StopApplication, Simulator.IsRunning, Simulator.Cancel, Socket.Close, hany,
          List.filter_filter, hfun]
    · have hnone : ∀ e ∈ evs, ¬ e.uid = u := by
        simpa using hany
      have hfilter : evs.filter (fun e => !decide (e.uid = u)) = evs := by
        rw [List.filter_eq_self]
        intro e he
        simpa using hnone e he
      cases sock <;>
        simp [StopApplication, Simulator.IsRunning, Simulator.Cancel, Socket.Close, hany,
          hfilter]

theorem next_running (w : World) (hrun : w.app.temprunning = true) :
    next w =
      { w with
        sim := { w.sim with
          nextUid := w.sim.nextUid + 1
          events := w.sim.events ++ [armedSend w] }
        app := { w.app with tempsendEvent := some w.sim.nextUid } } := by
  simp [next, hrun, Simulator.Schedule, armedSend]

theorem StartApplication_some (w : World) (s : Socket) (hs : w.app.tempsocket = some s) :
    StartApplication w =
      send { w with app := { w.app with
        temppacketsSent := 0
        temprunning := true
        tempsocket := some
          ((if !InetSocketAddress.IsMatchingType w.app.tempaddress then s.Bind6
            else s.Bind).Connect w.app.tempaddress) } } := by
  simp [StartApplication, hs]

theorem StartApplication_eq (w : World) (s : Socket) (hs : w.app.tempsocket = some s) :
    StartApplication w =
      .ok (if 1 < w.app.tempnPackets then next (afterFirstSend w s) else afterFirstSend w s) := by
  rw [StartApplication_some w s hs]
  simp only [send, afterFirstSend]
  norm_num
  split_ifs <;> rfl

/-- C9: for every generator that has a socket, `StartApplication` succeeds;
it binds with `Bind6` exactly when the destination is not an IPv4 socket
address and with `Bind` otherwise, connects to the destination, sends the
first packet at the current time, and leaves `temppacketsSent = 1` and
`temprunning = true`; it arms one send event, kept in `tempsendEvent`,
exactly when `tempnPackets > 1`, and otherwise leaves the scheduler as it
was. -/
theorem StartApplication_first_send (w : World) (s : Socket)
    (hs : w.app.tempsocket = some s) :
    ∃ w1 s1, StartApplication w = .ok w1 ∧
      w1.app.tempsocket = some s1 ∧
      s1.bound = some (if InetSocketAddress.IsMatchingType w.app.tempaddress
        then BindKind.bind else BindKind.bind6) ∧
      s1.peer = some w.app.tempaddress ∧
      s1.txLog = s.txLog ++ [(w.sim.now, w.app.temppacketSize)] ∧
      s1.closed = s.closed ∧
      w1.app.temppacketsSent = 1 ∧
      w1.app.temprunning = true ∧
      ((w1.sim.events = w.sim.events ++ [armedSend w] ∧
          w1.app.tempsendEvent = some w.sim.nextUid ∧
          w1.sim.IsRunning w1.app.tempsendEvent = true) ↔ 1 < w.app.tempnPackets) ∧
      (w.app.tempnPackets ≤ 1 →
        w1.sim = w.sim ∧ w1.app.tempsendEvent = w.app.tempsendEvent) := by
  rw [StartApplication_eq w s hs]
  by_cases hn : 1 < w.app.tempnPackets
  · rw [if_pos hn]
    have hrun : (afterFirstSend w s).app.temprunning = true := rfl
    rw [next_running _ hrun]
    refine ⟨_, _, rfl, rfl, ?_, ?_, ?_, ?_, rfl, rfl, ?_, ?_⟩
    · cases InetSocketAddress.IsMatchingType w.app.tempaddress <;>
        simp [Socket.Send, Socket.Connect, Socket.Bind, Socket.Bind6]
    · simp [Socket.Send, Socket.Connect]
    · simp [Socket.Send, Socket.Connect]
      split_ifs <;> rfl
    · simp [Socket.Send, Socket.Connect]
      split_ifs <;> rfl
    · simp only [hn, iff_true]
      refine ⟨rfl, rfl, ?_⟩
      simp [Simulator.IsRunning, armedSend]
    · intro hle
      omega
  · rw [if_neg hn]
    refine ⟨_, _, rfl, rfl, ?_, ?_, ?_, ?_, rfl, rfl, ?_, ?_⟩
    · cases InetSocketAddress.IsMatchingType w.app.tempaddress <;>
        simp [Socket.Send, Socket.Connect, Socket.Bind, Socket.Bind6]
    · simp [Socket.Send, Socket.Connect]
    · simp [Socket.Send, Socket.Connect]
      split_ifs <;> rfl
    · simp [Socket.Send, Socket.Connect]
      split_ifs <;> rfl
    · simp only [hn, iff_false, not_and]
      intro h
      simp [afterFirstSend] at h
    · intro _
      exact ⟨rfl, rfl⟩

/-- C9 witness: the generator with an IPv6 destination and target count 2
starts on the `Bind6` path and arms one send. -/
theorem StartApplication_first_send_witness :
    ∃ w1 s1, StartApplication (freshWorld (.inet6 1 4200) 512 2 1000000) = .ok w1 ∧
      w1.app.tempsocket = some s1 ∧ s1.bound = some BindKind.bind6 ∧
      w1.app.temppacketsSent = 1 := by
  obtain ⟨w1, s1, h1, h2, h3, _, _, _, h4, _⟩ :=
    StartApplication_first_send (freshWorld (.inet6 1 4200) 512 2 1000000) Socket.fresh rfl
  exact ⟨w1, s1, h1, h2, h3, h4⟩

/-- C6, as the code has it: `initialize` stores a bit rate of zero like any
other; the generator so configured starts and sends its first packet, and
when its target count is above 1 it reaches `next`, where the delay is not
a time: the send it arms has no time stamp. -/
theorem zero_rate_accepted (sock : Socket) (address : Address) (packetSize n : Nat)
    (fmon : ℚ → FlowStatsMap) (vd : List (ℚ × Int)) (sim : Simulator) :
    ( temp.new.initialize (some sock) address packetSize n 0).tempdataRate = 0 ∧
    ( temp.new.initialize (some sock) address packetSize n 0).tempsocket = some sock ∧
    interSendDelay ( temp.new.initialize (some sock) address packetSize n 0) = none ∧
    ∃ w1, StartApplication
        ⟨ temp.new.initialize (some sock) address packetSize n 0, fmon, vd, sim⟩ = .ok w1 ∧
      w1.app.temppacketsSent = 1 ∧
      w1.app.tempsocket.map Socket.txLog = some (sock.txLog ++ [(sim.now, packetSize)]) ∧
      (1 < n → w1.sim.events = sim.events ++ [⟨none, sim.nextUid, .send⟩]) := by
  refine ⟨rfl, rfl, rfl, ?_⟩
  rw [StartApplication_eq _ sock rfl]
  by_cases hn : 1 < n
  · have hn1 : 1 < ( temp.new.initialize (some sock) address packetSize n 0).tempnPackets := hn
    rw [if_pos hn1]
    have hrun : (afterFirstSend
        ⟨ temp.new.initialize (some sock) address packetSize n 0, fmon, vd, sim⟩
        sock).app.temprunning = true := rfl
    rw [next_running _ hrun]
    refine ⟨_, rfl, rfl, ?_, ?_⟩
    · simp [afterFirstSend, temp.initialize, Socket.Send, Socket.Connect]
      split_ifs <;> rfl
    · intro _
      rfl
  · have hn1 : ¬ 1 < ( temp.new.initialize (some sock) address packetSize n 0).tempnPackets := hn
    rw [if_neg hn1]
    refine ⟨_, rfl, rfl, ?_, ?_⟩
    · simp [afterFirstSend, temp.initialize, Socket.Send, Socket.Connect]
      split_ifs <;> rfl
    · intro h
      exact absurd h hn

/-- C6 witness: bit rate 0 and target count 2 on an idle scheduler. -/
theorem zero_rate_accepted_witness :
    (1 : Nat) < 2 ∧
    ∃ w1, StartApplication
        ⟨ temp.new.initialize (some Socket.fresh) (.inet 167837954 4200) 512 2 0,
          fun _ => [], [], ⟨0, 0, [], false⟩⟩ = .ok w1 ∧
      w1.sim.events = [⟨none, 0, .send⟩] := by
  refine ⟨by decide, ?_⟩
  obtain ⟨w1, h1, _, _, h2⟩ := (zero_rate_accepted Socket.fresh (.inet 167837954 4200) 512 2
    (fun _ => []) [] ⟨0, 0, [], false⟩).2.2.2
  exact ⟨w1, h1, h2 (by decide)⟩

/-- C6 counterexample: `initialize` with a bit rate of zero (512 bytes,
target count 2) returns a generator, that generator starts, and the start
reaches the delay computation with the zero divisor: the armed send has no
time stamp and the next step of the engine is undefined. -/
theorem zero_rate_counterexample :
    (freshWorld (.inet 167837954 4200) 512 2 0).app.tempdataRate = 0 ∧
    ∃ w1, StartApplication (freshWorld (.inet 167837954 4200) 512 2 0) = .ok w1 ∧
      w1.app.temprunning = true ∧
      w1.app.temppacketsSent = 1 ∧
      w1.sim.events = [⟨none, 0, .send⟩] ∧
      fire w1 = .error .undefinedTime := by
  refine ⟨rfl, ?_⟩
  rw [StartApplication_eq _ Socket.fresh rfl]
  exact ⟨_, rfl, rfl, rfl, rfl, rfl⟩

/-! ### Invariants of the life cycle -/

theorem earliest_mem : ∀ (l : List Event) (e : Event),
    Simulator.earliest l = some e → e ∈ l
  | [], e, h => by simp [Simulator.earliest] at h
  | a :: l, e, h => by
    unfold Simulator.earliest at h
    cases hm : Simulator.earliest l with
    | none =>
      simp [hm] at h
      simp [h]
    | some m =>
      simp only [hm] at h
      have := earliest_mem l m hm
      split_ifs at h
      · simp at h
        simp [h]
      · simp at h
        subst h
        simp [this]

theorem popNext_some {sim sim1 : Simulator} {e : Event}
    (h : sim.popNext = .ok (some (e, sim1))) :
    e ∈ sim.events ∧ e.ts = some sim1.now ∧
    sim1.events = sim.events.filter (fun x => x.uid != e.uid) ∧
    sim1.nextUid = sim.nextUid ∧ sim.stopped = false := by
  unfold Simulator.popNext at h
  split at h
  · cases h
  · rename_i hst
    split at h
    · cases h
    · rename_i e1 he1
      split at h
      · cases h
      · rename_i t ht
        injection h with h
        injection h with h
        injection h with h1 h2
        subst h1
        subst h2
        refine ⟨earliest_mem _ _ he1, ht, rfl, rfl, ?_⟩
        simpa using hst

theorem fire_cases {w w1 : World} (h : fire w = .ok w1) :
    w1 = w ∨ ∃ e sim1, w.sim.popNext = .ok (some (e, sim1)) ∧
      exec e.cb { w with sim := sim1 } = .ok w1 := by
  unfold fire at h
  split at h
  · cases h
  · injection h with h
    exact Or.inl h.symm
  · rename_i e sim1 hp
    exact Or.inr ⟨e, sim1, hp, h⟩

theorem send_eq (w : World) (s : Socket) (hs : w.app.tempsocket = some s) :
    send w = .ok
      (if (w.app.temppacketsSent + 1) % 2 ^ 32 < w.app.tempnPackets then
        next { w with app := { w.app with
          tempsocket := some (s.Send w.sim.now w.app.temppacketSize)
          temppacketsSent := (w.app.temppacketsSent + 1) % 2 ^ 32 } }
       else
        { w with app := { w.app with
          tempsocket := some (s.Send w.sim.now w.app.temppacketSize)
          temppacketsSent := (w.app.temppacketsSent + 1) % 2 ^ 32 } }) := by
  simp only [send, hs]
  split_ifs <;> rfl

theorem dropped_eq (w : World) :
    dropped w = .ok
      { w with
        vecdrop := w.vecdrop ++ [(w.sim.now, toInt32 (specDropTotal (w.fmon w.sim.now)))]
        sim := (w.sim.Schedule (some (1 / 100)) .dropped).1 } := by
  simp [dropped, dropCount_ok]

theorem inv_init {w : World} (h : Created w) : PInv .created w := by
  obtain ⟨⟨sock, address, packetSize, n, rate, happ, hn, hlog⟩, hq⟩ := h
  have hidle : Idle w := by
    intro e he hc
    rcases hq e he with h1 | h1 <;> rw [h1] at hc <;> cases hc
  refine ⟨⟨?_, ?_, ?_, ?_, ?_⟩, ?_, ?_⟩
  · intro e he
    rcases hq e he with h1 | h1 <;> rw [h1] <;> exact ⟨by decide, by decide⟩
  · intro e he hc
    exact absurd hc (hidle e he)
  · rw [happ]
    simp [ temp.initialize, temp.new]
  · rw [happ]
    exact hn
  · rw [txLogOf, happ]
    cases sock with
    | none => rfl
    | some s => simp [ temp.initialize, temp.new, hlog s rfl]
  · intro _
    exact ⟨hidle, by rw [happ]; rfl⟩
  · intro h
    cases h

theorem inv_stop {p : Phase} {w : World} (t : ℚ) (h : PInv p w) :
    PInv .stopped (stopAt t w) := by
  obtain ⟨⟨hq, ha, hb, ht, hl⟩, _, _⟩ := h
  obtain ⟨⟨sock, addr, ps, n, r, hd, run, sent⟩, fmon, vd, ⟨now, uid, evs, stp⟩⟩ := w
  have hsub : ∀ e ∈ (stopAt t ⟨⟨sock, addr, ps, n, r, hd, run, sent⟩, fmon, vd,
      ⟨now, uid, evs, stp⟩⟩).sim.events, e ∈ evs := by
    intro e he
    simp only [stopAt, StopApplication, Simulator.Cancel] at he
    split_ifs at he
    · cases hd with
      | none => exact he
      | some u => exact (List.mem_filter.mp he).1
    · exact he
  have hidle : Idle (stopAt t ⟨⟨sock, addr, ps, n, r, hd, run, sent⟩, fmon, vd,
      ⟨now, uid, evs, stp⟩⟩) := by
    intro e he hc
    have hmem := hsub e he
    have hu := (ha e hmem hc).1
    simp only at hu
    subst hu
    simp only [stopAt, StopApplication, Simulator.Cancel, Simulator.IsRunning] at he
    split_ifs at he with hany
    · have := (List.mem_filter.mp he).2
      simp at this
    · apply hany
      simp only [List.any_eq_true]
      exact ⟨e, hmem, by simp⟩
  refine ⟨⟨?_, ?_, ?_, ?_, ?_⟩, ?_, ?_⟩
  · intro e he
    exact hq e (hsub e he)
  · intro e he hc
    exact absurd hc (hidle e he)
  · cases sock <;> simpa [stopAt, StopApplication] using hb
  · cases sock <;> simpa [stopAt, StopApplication] using ht
  · cases sock <;> simpa [stopAt, StopApplication, txLogOf, Socket.Close] using hl
  · intro h
    cases h
  · intro _
    refine ⟨hidle, ?_⟩
    cases sock <;> simp [stopAt, StopApplication]

theorem inv_start {w w1 : World} (t : ℚ) (h : PInv .created w)
    (hs : startAt t w = .ok w1) : PInv .started w1 := by
  obtain ⟨⟨hq, ha, hb, ht, hl⟩, hc, _⟩ := h
  obtain ⟨hidle, hsent⟩ := hc rfl
  obtain ⟨⟨sock, addr, ps, n, r, hd, run, sent⟩, fmon, vd, ⟨now, uid, evs, stp⟩⟩ := w
  cases sock with
  | none => simp [startAt, StartApplication] at hs
  | some s =>
    simp only [startAt] at hs
    rw [StartApplication_eq _ s rfl] at hs
    injection hs with hs
    subst hs
    simp only at hsent ht hb
    subst hsent
    have hlen : s.txLog = [] := by simpa [txLogOf] using hl
    by_cases hn : 1 < n
    · simp only [hn, if_true]
      rw [next_running _ rfl]
      refine ⟨⟨?_, ?_, ?_, ?_, ?_⟩, ?_, ?_⟩
      · intro e he
        simp only [afterFirstSend, List.mem_append, List.mem_singleton] at he
        rcases he with he | he
        · exact hq e he
        · subst he
          exact ⟨by simp [armedSend], by simp [armedSend]⟩
      · intro e he hc
        simp only [afterFirstSend, List.mem_append, List.mem_singleton] at he
        rcases he with he | he
        · exact absurd hc (hidle e he)
        · subst he
          exact ⟨by simp [armedSend, afterFirstSend], by simpa [afterFirstSend] using hn⟩
      · simp [afterFirstSend]
      · simpa [afterFirstSend] using ht
      · simp [txLogOf, afterFirstSend, Socket.Send, Socket.Connect, hlen]
        split_ifs <;> simp [Socket.Bind, Socket.Bind6, hlen]
      · intro h
        cases h
      · intro h
        cases h
    · simp only [hn, if_false]
      refine ⟨⟨?_, ?_, ?_, ?_, ?_⟩, ?_, ?_⟩
      · intro e he
        exact hq e he
      · intro e he hc
        exact absurd hc (hidle e he)
      · simp [afterFirstSend]
      · simpa [afterFirstSend] using ht
      · simp [txLogOf, afterFirstSend, Socket.Send, Socket.Connect, hlen]
        split_ifs <;> simp [Socket.Bind, Socket.Bind6, hlen]
      · intro h
        cases h
      · intro h
        cases h

theorem inv_fire {p : Phase} {w w1 : World} (h : PInv p w) (hf : fire w = .ok w1) :
    PInv p w1 ∧ w.app.temppacketsSent ≤ w1.app.temppacketsSent ∧
      w1.app.temppacketsSent ≤ w.app.temppacketsSent + 1 ∧
      (Idle w → w1.app = w.app) := by
  rcases fire_cases hf with rfl | ⟨e, sim1, hpop, hex⟩
  · exact ⟨h, le_refl _, Nat.le_succ _, fun _ => rfl⟩
  obtain ⟨hmem, _, hev, huid, _⟩ := popNext_some hpop
  obtain ⟨⟨hq, ha, hb, ht, hl⟩, hc, hst⟩ := h
  have hsub : ∀ x ∈ sim1.events, x ∈ w.sim.events ∧ x.uid ≠ e.uid := by
    intro x hx
    rw [hev] at hx
    have := List.mem_filter.mp hx
    exact ⟨this.1, by simpa using this.2⟩
  obtain ⟨ets, euid, ecb⟩ := e
  cases ecb with
  | startApp => exact absurd rfl (hq _ hmem).1
  | stopApp => exact absurd rfl (hq _ hmem).2
  | simStop =>
    simp only [exec] at hex
    injection hex with hex
    subst hex
    refine ⟨⟨⟨?_, ?_, hb, ht, hl⟩, ?_, ?_⟩, le_refl _, Nat.le_succ _, fun _ => rfl⟩
    · intro x hx
      exact hq x (hsub x hx).1
    · intro x hx hcb
      exact ha x (hsub x hx).1 hcb
    · intro hp
      exact ⟨fun x hx => (hc hp).1 x (hsub x hx).1, (hc hp).2⟩
    · intro hp
      exact ⟨fun x hx => (hst hp).1 x (hsub x hx).1, (hst hp).2⟩
  | dropped =>
    simp only [exec] at hex
    rw [dropped_eq] at hex
    injection hex with hex
    subst hex
    have hnew : ∀ x ∈ sim1.events ++
        [(⟨Option.map (fun d => sim1.now + d) (some (1 / 100)), sim1.nextUid, .dropped⟩ : Event)],
        x ∈ w.sim.events ∨ x.cb = .dropped := by
      intro x hx
      rcases List.mem_append.mp hx with hx | hx
      · exact Or.inl (hsub x hx).1
      · simp only [List.mem_singleton] at hx
        subst hx
        exact Or.inr rfl
    refine ⟨⟨⟨?_, ?_, hb, ht, hl⟩, ?_, ?_⟩, le_refl _, Nat.le_succ _, fun _ => rfl⟩
    · intro x hx
      rcases hnew x hx with hx | hx
      · exact hq x hx
      · rw [hx]
        exact ⟨by decide, by decide⟩
    · intro x hx hcb
      rcases hnew x hx with hx | hx
      · exact ha x hx hcb
      · rw [hx] at hcb
        cases hcb
    · intro hp
      refine ⟨?_, (hc hp).2⟩
      intro x hx
      rcases hnew x hx with hx | hx
      · exact (hc hp).1 x hx
      · rw [hx]
        decide
    · intro hp
      refine ⟨?_, (hst hp).2⟩
      intro x hx
      rcases hnew x hx with hx | hx
      · exact (hst hp).1 x hx
      · rw [hx]
        decide
  | send =>
    obtain ⟨hhandle, hlt⟩ := ha _ hmem rfl
    have hnotidle : ¬ Idle w := fun hi => hi _ hmem rfl
    have hrest : ∀ x ∈ sim1.events, x.cb ≠ .send := by
      intro x hx hcb
      have h1 := (ha x (hsub x hx).1 hcb).1
      rw [hhandle] at h1
      injection h1 with h1
      exact (hsub x hx).2 h1.symm
    have hwrap : (w.app.temppacketsSent + 1) % 2 ^ 32 = w.app.temppacketsSent + 1 :=
      Nat.mod_eq_of_lt (by omega)
    simp only [exec] at hex
    cases hsock : w.app.tempsocket with
    | none => simp [send, hsock] at hex
    | some s =>
      rw [send_eq { w with sim := sim1 } s hsock] at hex
      injection hex with hex
      simp only at hex
      rw [hwrap] at hex
      have hlog : s.txLog.length = w.app.temppacketsSent := by
        simpa [txLogOf, hsock] using hl
      by_cases hmore : w.app.temppacketsSent + 1 < w.app.tempnPackets
      · rw [if_pos hmore] at hex
        by_cases hrun : w.app.temprunning = true
        · rw [next_running] at hex
          swap
          · exact hrun
          subst hex
          refine ⟨⟨⟨?_, ?_, ?_, ht, ?_⟩, ?_, ?_⟩, Nat.le_succ _, le_refl _,
            fun hi => absurd hi hnotidle⟩
          · intro x hx
            rcases List.mem_append.mp hx with hx | hx
            · exact hq x (hsub x hx).1
            · simp only [List.mem_singleton] at hx
              subst hx
              exact ⟨by simp [armedSend], by simp [armedSend]⟩
          · intro x hx hcb
            rcases List.mem_append.mp hx with hx | hx
            · exact absurd hcb (hrest x hx)
            · simp only [List.mem_singleton] at hx
              subst hx
              exact ⟨by simp [armedSend], hmore⟩
          · exact le_trans (le_of_lt hmore) (le_max_left _ _)
          · simp [txLogOf, Socket.Send, hlog]
          · intro hp
            exact absurd (hc hp).1 hnotidle
          · intro hp
            exact absurd (hst hp).1 hnotidle
        · have hnext : ∀ v : World, v.app.temprunning = w.app.temprunning → next v = v := by
            intro v hv
            simp [next, hv, hrun]
          rw [hnext] at hex
          swap
          · rfl
          subst hex
          refine ⟨⟨⟨?_, ?_, ?_, ht, ?_⟩, ?_, ?_⟩, Nat.le_succ _, le_refl _,
            fun hi => absurd hi hnotidle⟩
          · intro x hx
            exact hq x (hsub x hx).1
          · intro x hx hcb
            exact absurd hcb (hrest x hx)
          · exact le_trans (le_of_lt hmore) (le_max_left _ _)
          · simp [txLogOf, Socket.Send, hlog]
          · intro hp
            exact absurd (hc hp).1 hnotidle
          · intro hp
            exact absurd (hst hp).1 hnotidle
      · rw [if_neg hmore] at hex
        subst hex
        refine ⟨⟨⟨?_, ?_, ?_, ht, ?_⟩, ?_, ?_⟩, Nat.le_succ _, le_refl _,
          fun hi => absurd hi hnotidle⟩
        · intro x hx
          exact hq x (hsub x hx).1
        · intro x hx hcb
          exact absurd hcb (hrest x hx)
        · exact le_trans (Nat.succ_le_of_lt hlt) (le_max_left _ _)
        · simp [txLogOf, Socket.Send, hlog]
        · intro hp
          exact absurd (hc hp).1 hnotidle
        · intro hp
          exact absurd (hst hp).1 hnotidle

theorem reach_inv {p : Phase} {w : World} (h : Reach p w) : PInv p w := by
  induction h with
  | init hc => exact inv_init hc
  | start t _ hs ih => exact inv_start t ih hs
  | stop t _ ih => exact inv_stop t ih
  | fire _ hf ih => exact (inv_fire ih hf).1

theorem next_nPackets (w : World) : (next w).app.tempnPackets = w.app.tempnPackets := by
  unfold next
  split_ifs <;> rfl

theorem send_nPackets {w w1 : World} (h : send w = .ok w1) :
    w1.app.tempnPackets = w.app.tempnPackets := by
  cases hs : w.app.tempsocket with
  | none => simp [send, hs] at h
  | some s =>
    rw [send_eq w s hs] at h
    injection h with h
    subst h
    split_ifs
    · rw [next_nPackets]
    · rfl

theorem stopAt_facts (t : ℚ) (w : World) :
    txLogOf (stopAt t w) = txLogOf w ∧
    (stopAt t w).app.temppacketsSent = w.app.temppacketsSent ∧
    (stopAt t w).app.tempnPackets = w.app.tempnPackets ∧
    (stopAt t w).app.temprunning = false := by
  obtain ⟨⟨sock, addr, ps, n, r, hd, run, sent⟩, fmon, vd, sim⟩ := w
  cases sock <;> simp [stopAt, StopApplication, txLogOf, Socket.Close]

theorem stop_handle_not_running (w : World) :
    (StopApplication w).sim.IsRunning (StopApplication w).app.tempsendEvent = false := by
  obtain ⟨⟨sock, addr, ps, n, r, h, run, sent⟩, fmon, vd, ⟨now, uid, evs, stp⟩⟩ := w
  cases h with
  | none => cases sock <;> simp [StopApplication, Simulator.IsRunning]
  | some u =>
    by_cases hany : evs.any (fun e => e.uid == u) = true
    · cases sock <;>
        simp [StopApplication, Simulator.IsRunning, Simulator.Cancel, hany]
    · cases sock <;>
        simp [StopApplication, Simulator.IsRunning, Simulator.Cancel, hany]

theorem fire_nPackets {p : Phase} {w w1 : World} (h : PInv p w) (hf : fire w = .ok w1) :
    w1.app.tempnPackets = w.app.tempnPackets := by
  rcases fire_cases hf with rfl | ⟨e, sim1, hpop, hex⟩
  · rfl
  obtain ⟨hmem, _⟩ := popNext_some hpop
  obtain ⟨ets, euid, ecb⟩ := e
  cases ecb with
  | startApp => exact absurd rfl (h.1.queue _ hmem).1
  | stopApp => exact absurd rfl (h.1.queue _ hmem).2
  | simStop =>
    simp only [exec] at hex
    injection hex with hex
    subst hex
    rfl
  | dropped =>
    simp only [exec] at hex
    rw [dropped_eq] at hex
    injection hex with hex
    subst hex
    rfl
  | send =>
    simp only [exec] at hex
    exact send_nPackets (w := { w with sim := sim1 }) hex

theorem after_stop {w w1 : World} (hw : Reach .stopped w)
    (h : Relation.ReflTransGen Step w w1) :
    Reach .stopped w1 ∧ txLogOf w1 = txLogOf w ∧
      w1.app.temppacketsSent = w.app.temppacketsSent := by
  induction h with
  | refl => exact ⟨hw, rfl, rfl⟩
  | @tail w2 w3 _ hstep ih =>
    obtain ⟨hr, hlog, hsent⟩ := ih
    cases hstep with
    | fire hf =>
      have happ := (inv_fire (reach_inv hr) hf).2.2.2 ((reach_inv hr).2.2 rfl).1
      refine ⟨Reach.fire hr hf, ?_, ?_⟩
      · rw [← hlog]
        simp [txLogOf, happ]
      · rw [← hsent, happ]
    | stop t =>
      have hfacts := stopAt_facts t w2
      exact ⟨Reach.stop t hr, hfacts.1.trans hlog, hfacts.2.1.trans hsent⟩

/-- C2, as the code has it: in every world reached from a configured
generator by one start, deliveries of pending events and stops, the number of
`Send` calls equals `temppacketsSent`, which no delivery decreases nor raises
by more than one and no stop changes, and which never exceeds the larger of
`tempnPackets` and 1: it never exceeds a target count of at least 1, and the
target count itself stays as configured. -/
theorem sent_count_bounded {p : Phase} {w : World} (h : Reach p w) :
    w.app.temppacketsSent ≤ max w.app.tempnPackets 1 ∧
    (1 ≤ w.app.tempnPackets → w.app.temppacketsSent ≤ w.app.tempnPackets) ∧
    (txLogOf w).length = w.app.temppacketsSent ∧
    (∀ w1, fire w = .ok w1 →
      w.app.temppacketsSent ≤ w1.app.temppacketsSent ∧
      w1.app.temppacketsSent ≤ w.app.temppacketsSent + 1 ∧
      w1.app.tempnPackets = w.app.tempnPackets) ∧
    (∀ t, (stopAt t w).app.temppacketsSent = w.app.temppacketsSent ∧
      (stopAt t w).app.tempnPackets = w.app.tempnPackets) := by
  have hinv := reach_inv h
  refine ⟨hinv.1.bound, ?_, hinv.1.log, ?_, ?_⟩
  · intro h1
    have := hinv.1.bound
    rwa [max_eq_left h1] at this
  · intro w1 hf
    have := inv_fire hinv hf
    exact ⟨this.2.1, this.2.2.1, fire_nPackets hinv hf⟩
  · intro t
    exact ⟨(stopAt_facts t w).2.1, (stopAt_facts t w).2.2.1⟩

/-- C3: from any reachable world, `StopApplication` at any time `t` leaves
`temprunning` false, the send handle not pending and no send event in the
queue, and sends nothing itself; and in every world that deliveries of
pending events and further stops lead to from there, no send event is
pending or delivered, and the packets sent and their count are those from
before the stop. -/
theorem no_send_after_stop {p : Phase} {w : World} (h : Reach p w) (t : ℚ) :
    (stopAt t w).app.temprunning = false ∧
    (stopAt t w).sim.IsRunning (stopAt t w).app.tempsendEvent = false ∧
    Idle (stopAt t w) ∧
    txLogOf (stopAt t w) = txLogOf w ∧
    ∀ w1, Relation.ReflTransGen Step (stopAt t w) w1 →
      Idle w1 ∧
      (∀ e sim1, w1.sim.popNext = .ok (some (e, sim1)) → e.cb ≠ .send) ∧
      w1.app.temprunning = false ∧
      txLogOf w1 = txLogOf w ∧
      w1.app.temppacketsSent = w.app.temppacketsSent := by
  have hstop : Reach .stopped (stopAt t w) := Reach.stop t h
  have hfacts := stopAt_facts t w
  refine ⟨hfacts.2.2.2, stop_handle_not_running _, ((reach_inv hstop).2.2 rfl).1,
    hfacts.1, ?_⟩
  intro w1 hsteps
  obtain ⟨hr, hlog, hsent⟩ := after_stop hstop hsteps
  have hidle := ((reach_inv hr).2.2 rfl)
  refine ⟨hidle.1, ?_, hidle.2, hlog.trans hfacts.1, hsent.trans hfacts.2.1⟩
  intro e sim1 hpop
  exact hidle.1 e (popNext_some hpop).1

/-! ### Reachable worlds of a fresh generator -/

theorem freshWorld_created (address : Address) (packetSize n rate : Nat) (hn : n < 2 ^ 32) :
    Created (freshWorld address packetSize n rate) := by
  refine ⟨⟨some Socket.fresh, address, packetSize, n, rate, rfl, hn, ?_⟩, ?_⟩
  · intro s hs
    injection hs with hs
    subst hs
    rfl
  · intro e he
    simp [freshWorld] at he

theorem freshWorld_started (address : Address) (packetSize n rate : Nat) (hn : n < 2 ^ 32) :
    ∃ w1, startAt 0 (freshWorld address packetSize n rate) = .ok w1 ∧ Reach .started w1 ∧
      w1.app.tempnPackets = n ∧ w1.app.temppacketsSent = 1 ∧
      (1 < n → ¬ Idle w1) := by
  have hstart : startAt 0 (freshWorld address packetSize n rate) =
      .ok (if 1 < n then next (afterFirstSend (freshWorld address packetSize n rate) Socket.fresh)
        else afterFirstSend (freshWorld address packetSize n rate) Socket.fresh) :=
    StartApplication_eq (freshWorld address packetSize n rate) Socket.fresh rfl
  refine ⟨_, hstart, Reach.start 0 (Reach.init (freshWorld_created _ _ _ _ hn)) hstart, ?_, ?_, ?_⟩
  · split_ifs
    · rw [next_nPackets]
      rfl
    · rfl
  · split_ifs
    · rw [next_running _ rfl]
      rfl
    · rfl
  · intro h1 hidle
    rw [if_pos h1, next_running _ rfl] at hidle
    exact hidle (armedSend (afterFirstSend (freshWorld address packetSize n rate) Socket.fresh))
      (by simp) rfl

/-- C2 witness: a started generator with target count 100000 has sent no
more than 100000 packets. -/
theorem sent_count_bounded_witness :
    ∃ w, Reach .started w ∧ w.app.tempnPackets = 100000 ∧
      w.app.temppacketsSent ≤ 100000 := by
  obtain ⟨w, _, hr, hn, _⟩ := freshWorld_started (.inet 167837954 4200) 512 100000 1000000
    (by norm_num)
  refine ⟨w, hr, hn, ?_⟩
  have h := (sent_count_bounded hr).2.1
  rw [hn] at h
  exact h (by norm_num)

/-- C2 counterexample: with target count 0 the start of the generator sends
one packet, so the sent-count 1 exceeds the target. -/
theorem sent_exceeds_zero_target :
    ∃ w, startAt 0 (freshWorld (.inet 167837954 4200) 512 0 1000000) = .ok w ∧
      Reach .started w ∧ w.app.tempnPackets = 0 ∧ w.app.temppacketsSent = 1 ∧
      (txLogOf w).length = 1 ∧
      ¬ w.app.temppacketsSent ≤ w.app.tempnPackets := by
  obtain ⟨w, hs, hr, hn, hsent, _⟩ := freshWorld_started (.inet 167837954 4200) 512 0 1000000
    (by norm_num)
  refine ⟨w, hs, hr, hn, hsent, ?_, ?_⟩
  · rw [(reach_inv hr).1.log, hsent]
  · rw [hn, hsent]
    decide

/-- C3 witness: a started generator with a send armed; after a stop at
0.001 s no send is pending and the one packet sent stays the only one. -/
theorem no_send_after_stop_witness :
    ∃ w, Reach .started w ∧ ¬ Idle w ∧ Idle (stopAt (1 / 1000) w) ∧
      ∀ w1, Relation.ReflTransGen Step (stopAt (1 / 1000) w) w1 →
        w1.app.temppacketsSent = 1 := by
  obtain ⟨w, _, hr, _, hsent, harmed⟩ :=
    freshWorld_started (.inet 167837954 4200) 512 100000 1000000 (by norm_num)
  have h := no_send_after_stop hr (1 / 1000)
  refine ⟨w, hr, harmed (by norm_num), h.2.2.1, ?_⟩
  intro w1 hsteps
  rw [(h.2.2.2.2 w1 hsteps).2.2.2.2, hsent]

/-! ### The run of the driver -/

/-- C5 witness: "TcpFoo" is none of the five names, and `main` exits at once. -/
theorem main_variant_selection_witness :
    "TcpFoo" ∉ variantNames ∧ main "TcpFoo" = [.logDebug, .exitProcess 1] :=
  ⟨by decide, (main_variant_selection.2.2.2.2.2.2.1 "TcpFoo" (by decide)).1⟩

end TcpVariants
